import Mathlib

/-!
Verification of the scheduling helpers of the repository.

The program fetches a day/time-slot dataset, computes the gaps between
busy intervals of a day (`free_slots_at_date`), filters days by a minimum
free-interval duration (`find_suitable_slot`), and checks whether a
requested slot fits inside some free interval (`can_schedule_slot`,
`check_time_boundaries`).  Errors raised by a query function are caught
by the `exception_handler` decorator and printed as one `ERROR: ...` line.

Embedding conventions:
* Wall-clock times (`datetime.time`, resolution minutes in the feed) are
  embedded as `Nat` minutes; the order on `datetime.time` is the order on
  the minute count, so every comparison in the source maps to the same
  comparison on `Nat`.
* Calendar dates are embedded as `Nat` day codes.  The source keys its
  schedule dict by the string `date.strftime("%Y-%m-%d")`; that formatting
  is injective on dates, so the key space is embedded by the date code
  itself.
* The Python `dict` (insertion ordered, unique keys) is embedded as an
  association list; `dict.get` is `List.lookup`, and iteration order is
  the list order.
* `timedelta` values are embedded as `Int` minutes (`timedelta` is signed,
  and `time_diff` in the source can return a negative difference).
* A Python function that may raise is embedded as a function into
  `Except String`; the message is the exception text.
-/

namespace Scheduler

/-- Schema `Slot` from `src/shemas.py`: a date plus a start and end time. -/
structure Slot where
  date : Nat
  start : Nat
  «end» : Nat
deriving DecidableEq

/-- Schema `Day` from `src/shemas.py`: a `Slot` plus an `id`. -/
structure Day extends Slot where
  id : Nat
deriving DecidableEq

/-- Schema `TimeSlot` from `src/shemas.py`: a busy interval of a day. -/
structure TimeSlot where
  day_id : Nat
  start : Nat
  «end» : Nat
deriving DecidableEq

/-- `ScheduleType = Dict[str, Tuple[Day, List[TimeSlot]]]` from
`src/shemas.py`, with the dict embedded as an association list keyed by
the date code (the source's `"%Y-%m-%d"` string key is an injective image
of the date). -/
abbrev ScheduleType := List (Nat × Day × List TimeSlot)

/-- An instant `t` lies inside the half-open interval of slot `s`. -/
def covers (s : TimeSlot) (t : Nat) : Bool :=
  decide (s.start ≤ t) && decide (t < s.«end»)

/-- The loop of `free_slots_at_date` (`src/helpers.py` lines 160-167): walk
the busy slots with a cursor (the mutated `day.start` of the source),
emitting a gap whenever the cursor is strictly before the next busy start.
Returns the emitted gaps and the final cursor value. -/
def free_slots_loop (cur : Nat) : List TimeSlot → List TimeSlot × Nat
  | [] => ([], cur)
  | s :: rest =>
    if cur = s.start then
      free_slots_loop s.«end» rest
    else if cur < s.start then
      let r := free_slots_loop s.«end» rest
      (⟨s.day_id, cur, s.start⟩ :: r.1, r.2)
    else
      free_slots_loop cur rest

/-- Body of `free_slots_at_date` after the schedule lookup succeeded
(`src/helpers.py` lines 158-171): run the gap walk from `day.start` and
append the final gap up to `day.end` when the cursor did not reach it. -/
def free_slots_core (day : Day) (slots : List TimeSlot) : List TimeSlot :=
  let r := free_slots_loop day.start slots
  if r.2 ≠ day.«end» then r.1 ++ [⟨day.id, r.2, day.«end»⟩] else r.1

/-- `free_slots_at_date` from `src/helpers.py` (lines 134-171).  The
runtime type validations of the source are enforced by the embedding's
types; `schedule.get(str_date) is None` is the `none` case of the lookup. -/
def free_slots_at_date (schedule : ScheduleType) (date_key : Nat) :
    List TimeSlot :=
  match schedule.lookup date_key with
  | none => []
  | some (day, slots) => free_slots_core day slots

/-- `time_diff` from `src/helpers.py` (lines 229-242): difference of two
times as a signed duration. -/
def time_diff (time_1 time_2 : Nat) : Int :=
  (time_1 : Int) - (time_2 : Int)

/-- `find_suitable_slot` from `src/helpers.py` (lines 174-207).  A
non-positive duration raises `ValueError` (the `Except.error` case); the
loop over the schedule keys keeps, per date, the free slots at least
`duration` long and drops the date when none qualifies. -/
def find_suitable_slot (schedule : ScheduleType) (duration : Int) :
    Except String ScheduleType :=
  if duration ≤ 0 then
    .error "Invalid duration. Must be a positive timedelta."
  else
    .ok (schedule.filterMap fun e =>
      let free_slots := free_slots_at_date schedule e.1
      let suitable_slots :=
        free_slots.filter fun x => decide (duration ≤ time_diff x.«end» x.start)
      if suitable_slots.isEmpty then none
      else some (e.1, e.2.1, suitable_slots))

/-- The `Union[Day, TimeSlot]` argument type of `check_time_boundaries`. -/
inductive DayOrTimeSlot where
  | day : Day → DayOrTimeSlot
  | timeslot : TimeSlot → DayOrTimeSlot
deriving DecidableEq

/-- Python attribute access `other.start` on the union type. -/
def DayOrTimeSlot.start : DayOrTimeSlot → Nat
  | .day d => d.start
  | .timeslot s => s.start

/-- Python attribute access `other.end` on the union type. -/
def DayOrTimeSlot.«end» : DayOrTimeSlot → Nat
  | .day d => d.«end»
  | .timeslot s => s.«end»

/-- `check_time_boundaries` from `src/helpers.py` (lines 210-226):
`other.start <= slot.start and slot.end <= other.end`. -/
def check_time_boundaries (slot : Slot) (other : DayOrTimeSlot) : Bool :=
  decide (other.start ≤ slot.start) && decide (slot.«end» ≤ other.«end»)

/-- `can_schedule_slot` from `src/helpers.py` (lines 245-258): `False` on
an empty free-slot list, otherwise `any` of the containment checks. -/
def can_schedule_slot (slot : Slot) (free_slots : List TimeSlot) : Bool :=
  if free_slots.isEmpty then false
  else free_slots.any fun f => check_time_boundaries slot (.timeslot f)

/-- `exception_handler` from `src/helpers.py` (lines 11-28): the wrapped
call either returns the function's value unchanged with no output, or
catches the raised exception and prints one `ERROR: <message>` line,
returning `None`.  The second component is the list of printed lines. -/
def exception_handler {α β : Type} (func : α → Except String β) (a : α) :
    Option β × List String :=
  match func a with
  | .ok v => (some v, [])
  | .error e => (none, ["ERROR: " ++ e])

/-- The busy list `busy` of a day is well formed in the sense of the spec's
data model (section 3): every interval is non-empty and contained in the
day's window, the list is sorted ascending by start, and the intervals are
pairwise non-overlapping. -/
def WfBusy (day : Day) (busy : List TimeSlot) : Prop :=
  (∀ s ∈ busy, s.start < s.«end» ∧ day.start ≤ s.start ∧ s.«end» ≤ day.«end») ∧
  List.Pairwise (fun a b => a.start ≤ b.start) busy ∧
  List.Pairwise (fun a b => a.«end» ≤ b.start ∨ b.«end» ≤ a.start) busy

instance (day : Day) (busy : List TimeSlot) : Decidable (WfBusy day busy) := by
  unfold WfBusy; infer_instance

/-- A well-formed busy list satisfies the consecutive-chain form of
sortedness plus disjointness: every earlier interval ends no later than a
later one starts. -/
theorem WfBusy.chain {day : Day} {busy : List TimeSlot} (h : WfBusy day busy) :
    List.Pairwise (fun a b : TimeSlot => a.«end» ≤ b.start) busy := by
  obtain ⟨hmem, hsort, hdisj⟩ := h
  refine (hsort.and hdisj).imp_of_mem ?_
  intro a b ha hb hab
  have hbne := (hmem b hb).1
  rcases hab.2 with h1 | h1
  · exact h1
  · omega

/-- Unfolding of the coverage test as a proposition. -/
theorem covers_eq_true {s : TimeSlot} {t : Nat} :
    covers s t = true ↔ s.start ≤ t ∧ t < s.«end» := by
  simp [covers]

/-- Invariant of the gap walk `free_slots_loop`, by induction on the busy
list with the cursor generalized: the cursor never decreases, stays below
any common upper bound of the busy ends, the emitted gaps are non-empty,
ordered, and confined to `[cur, final)`, and the emitted gaps together
with the busy slots cover each instant of `[cur, final)` exactly once and
nothing outside it. -/
theorem free_slots_loop_spec :
    ∀ (busy : List TimeSlot) (cur : Nat),
    (∀ s ∈ busy, s.start < s.«end» ∧ cur ≤ s.start) →
    List.Pairwise (fun a b : TimeSlot => a.«end» ≤ b.start) busy →
    cur ≤ (free_slots_loop cur busy).2 ∧
    (∀ B, cur ≤ B → (∀ s ∈ busy, s.«end» ≤ B) →
      (free_slots_loop cur busy).2 ≤ B) ∧
    (∀ f ∈ (free_slots_loop cur busy).1,
      cur ≤ f.start ∧ f.start < f.«end» ∧ f.«end» ≤ (free_slots_loop cur busy).2) ∧
    List.Pairwise (fun a b : TimeSlot => a.«end» ≤ b.start)
      (free_slots_loop cur busy).1 ∧
    (∀ t, ((free_slots_loop cur busy).1 ++ busy).countP (fun s => covers s t)
        = if cur ≤ t ∧ t < (free_slots_loop cur busy).2 then 1 else 0) := by
  intro busy
  induction busy with
  | nil =>
    intro cur _ _
    refine ⟨Nat.le_refl _, ?_, ?_, ?_, ?_⟩
    · intro B hB _; simpa [free_slots_loop] using hB
    · intro f hf; simp [free_slots_loop] at hf
    · simp [free_slots_loop]
    · intro t
      simp only [free_slots_loop, List.nil_append, List.countP_nil]
      split
      · omega
      · rfl
  | cons s rest ih =>
    intro cur hmem hpw
    obtain ⟨hs1, hs2⟩ := hmem s (List.mem_cons_self s rest)
    rw [List.pairwise_cons] at hpw
    obtain ⟨hhd, hpw'⟩ := hpw
    by_cases heq : cur = s.start
    · -- cursor exactly at the busy start: no gap emitted
      obtain ⟨ih1, ih2, ih3, ih4, ih5⟩ :=
        ih s.«end»
          (fun r hr => ⟨(hmem r (List.mem_cons_of_mem s hr)).1, hhd r hr⟩) hpw'
      simp only [free_slots_loop, if_pos heq]
      refine ⟨by omega, ?_, ?_, ih4, ?_⟩
      · intro B hB hall
        exact ih2 B (by have := hall s (List.mem_cons_self s rest); omega)
          (fun r hr => hall r (List.mem_cons_of_mem s hr))
      · intro f hf
        have := ih3 f hf
        exact ⟨by omega, this.2.1, this.2.2⟩
      · intro t
        have h5 := ih5 t
        simp only [List.countP_append] at h5 ⊢
        rw [List.countP_cons]
        simp only [covers_eq_true]
        split_ifs at h5 ⊢ <;> omega
    · by_cases hlt : cur < s.start
      · -- cursor strictly before the busy start: emit the gap [cur, s.start)
        obtain ⟨ih1, ih2, ih3, ih4, ih5⟩ :=
          ih s.«end»
            (fun r hr => ⟨(hmem r (List.mem_cons_of_mem s hr)).1, hhd r hr⟩) hpw'
        simp only [free_slots_loop, if_neg heq, if_pos hlt]
        refine ⟨by omega, ?_, ?_, ?_, ?_⟩
        · intro B hB hall
          exact ih2 B (by have := hall s (List.mem_cons_self s rest); omega)
            (fun r hr => hall r (List.mem_cons_of_mem s hr))
        · intro f hf
          rcases List.mem_cons.mp hf with rfl | hf'
          · refine ⟨Nat.le_refl _, hlt, ?_⟩
            show s.start ≤ (free_slots_loop s.«end» rest).2
            omega
          · have := ih3 f hf'
            exact ⟨by omega, this.2.1, this.2.2⟩
        · rw [List.pairwise_cons]
          refine ⟨?_, ih4⟩
          intro f hf
          have := ih3 f hf
          show s.start ≤ f.start
          omega
        · intro t
          have h5 := ih5 t
          simp only [List.countP_append, List.countP_cons] at h5 ⊢
          simp only [covers_eq_true]
          split_ifs at h5 ⊢ <;> omega
      · exact absurd hs2 (by omega)

/-- Full specification of `free_slots_core`: under the data-model
invariants, the returned gaps are ordered, non-empty, contained in the
day's window, and together with the busy slots they cover each instant of
`[day.start, day.end)` exactly once and no instant outside the window. -/
theorem free_slots_core_spec (day : Day) (busy : List TimeSlot)
    (hle : day.start ≤ day.«end») (hwf : WfBusy day busy) :
    (∀ t, ((free_slots_core day busy) ++ busy).countP (fun s => covers s t)
        = if day.start ≤ t ∧ t < day.«end» then 1 else 0) ∧
    List.Pairwise (fun a b : TimeSlot => a.«end» ≤ b.start)
      (free_slots_core day busy) ∧
    (∀ f ∈ free_slots_core day busy,
      day.start ≤ f.start ∧ f.start < f.«end» ∧ f.«end» ≤ day.«end») := by
  obtain ⟨l1, l2, l3, l4, l5⟩ :=
    free_slots_loop_spec busy day.start
      (fun s hs => ⟨(hwf.1 s hs).1, (hwf.1 s hs).2.1⟩) hwf.chain
  have hr2 : (free_slots_loop day.start busy).2 ≤ day.«end» :=
    l2 day.«end» hle (fun s hs => (hwf.1 s hs).2.2)
  by_cases hend : (free_slots_loop day.start busy).2 = day.«end»
  · simp only [free_slots_core, hend, ne_eq, not_true_eq_false, if_false]
    refine ⟨?_, l4, ?_⟩
    · intro t
      rw [l5 t, hend]
    · intro f hf
      have := l3 f hf
      exact ⟨this.1, this.2.1, by omega⟩
  · simp only [free_slots_core, ne_eq, hend, not_false_eq_true, if_true]
    refine ⟨?_, ?_, ?_⟩
    · intro t
      have h5 := l5 t
      simp only [List.countP_append, List.countP_cons, List.countP_nil] at h5 ⊢
      simp only [covers_eq_true]
      split_ifs at h5 ⊢ <;> omega
    · rw [List.pairwise_append]
      refine ⟨l4, List.pairwise_singleton _ _, ?_⟩
      intro a ha b hb
      rw [List.mem_singleton] at hb
      subst hb
      exact (l3 a ha).2.2
    · intro f hf
      rcases List.mem_append.mp hf with hf' | hf'
      · have := l3 f hf'
        exact ⟨this.1, this.2.1, by omega⟩
      · rw [List.mem_singleton] at hf'
        subst hf'
        refine ⟨l1, ?_, Nat.le_refl _⟩
        show (free_slots_loop day.start busy).2 < day.«end»
        omega

/-- The gaps returned by `free_slots_core` are disjoint from every busy
slot: on any overlap the covering count of some instant would exceed one. -/
theorem free_slots_core_disjoint (day : Day) (busy : List TimeSlot)
    (hle : day.start ≤ day.«end») (hwf : WfBusy day busy) :
    ∀ f ∈ free_slots_core day busy, ∀ b ∈ busy,
      f.«end» ≤ b.start ∨ b.«end» ≤ f.start := by
  obtain ⟨htile, _, hbounds⟩ := free_slots_core_spec day busy hle hwf
  intro f hf b hb
  by_contra hcon
  push_neg at hcon
  obtain ⟨hfb, hbf⟩ := hcon
  have hfne := (hbounds f hf).2.1
  have hbne := (hwf.1 b hb).1
  set t := max f.start b.start with ht
  have hcf : covers f t = true := by
    simp only [covers, Bool.and_eq_true, decide_eq_true_eq]
    omega
  have hcb : covers b t = true := by
    simp only [covers, Bool.and_eq_true, decide_eq_true_eq]
    omega
  have h1 : 0 < (free_slots_core day busy).countP (fun s => covers s t) :=
    List.countP_pos_iff.mpr ⟨f, hf, hcf⟩
  have h2 : 0 < busy.countP (fun s => covers s t) :=
    List.countP_pos_iff.mpr ⟨b, hb, hcb⟩
  have h3 := htile t
  rw [List.countP_append] at h3
  split_ifs at h3 <;> omega

/-- C1: for every day whose window satisfies `start < end` and every busy
list that is sorted ascending by start, pairwise non-overlapping, and
contained in the window, the free slots returned by `free_slots_at_date`
together with the busy slots cover every instant of `[day.start, day.end)`
exactly once and no instant outside it, the free slots are ordered and
pairwise disjoint, and every free slot is disjoint from every busy slot. -/
theorem free_slots_tiling (schedule : ScheduleType) (k : Nat)
    (day : Day) (busy : List TimeSlot)
    (hlk : schedule.lookup k = some (day, busy))
    (hwin : day.start < day.«end») (hwf : WfBusy day busy) :
    (∀ t, ((free_slots_at_date schedule k) ++ busy).countP (fun s => covers s t)
        = if day.start ≤ t ∧ t < day.«end» then 1 else 0) ∧
    List.Pairwise (fun a b : TimeSlot => a.«end» ≤ b.start)
      (free_slots_at_date schedule k) ∧
    (∀ f ∈ free_slots_at_date schedule k, ∀ b ∈ busy,
      f.«end» ≤ b.start ∨ b.«end» ≤ f.start) := by
  have hfree : free_slots_at_date schedule k = free_slots_core day busy := by
    simp [free_slots_at_date, hlk]
  rw [hfree]
  obtain ⟨h1, h2, _⟩ := free_slots_core_spec day busy (Nat.le_of_lt hwin) hwf
  exact ⟨h1, h2, free_slots_core_disjoint day busy (Nat.le_of_lt hwin) hwf⟩

/-- Witness of C1 at the spec's example: window 09:00-18:00, one busy slot
11:00-12:00 (times in minutes). -/
theorem free_slots_tiling_witness :
    (∀ t, ((free_slots_at_date
        [(0, (⟨⟨0, 540, 1080⟩, 1⟩ : Day), [(⟨1, 660, 720⟩ : TimeSlot)])] 0)
          ++ [(⟨1, 660, 720⟩ : TimeSlot)]).countP (fun s => covers s t)
        = if 540 ≤ t ∧ t < 1080 then 1 else 0) ∧
    List.Pairwise (fun a b : TimeSlot => a.«end» ≤ b.start)
      (free_slots_at_date
        [(0, (⟨⟨0, 540, 1080⟩, 1⟩ : Day), [(⟨1, 660, 720⟩ : TimeSlot)])] 0) ∧
    (∀ f ∈ free_slots_at_date
        [(0, (⟨⟨0, 540, 1080⟩, 1⟩ : Day), [(⟨1, 660, 720⟩ : TimeSlot)])] 0,
      ∀ b ∈ [(⟨1, 660, 720⟩ : TimeSlot)],
      f.«end» ≤ b.start ∨ b.«end» ≤ f.start) :=
  free_slots_tiling
    [(0, (⟨⟨0, 540, 1080⟩, 1⟩ : Day), [(⟨1, 660, 720⟩ : TimeSlot)])] 0
    ⟨⟨0, 540, 1080⟩, 1⟩ [⟨1, 660, 720⟩] rfl (by decide) (by decide)

/-- C2: with an empty busy list, `free_slots_at_date` returns the single
interval `[day.start, day.end)` (carrying the day's id), except that it
returns the empty list when `day.start = day.end`. -/
theorem free_slots_empty_busy (schedule : ScheduleType) (k : Nat) (day : Day)
    (hlk : schedule.lookup k = some (day, [])) :
    free_slots_at_date schedule k =
      if day.start = day.«end» then [] else [⟨day.id, day.start, day.«end»⟩] := by
  have hfree : free_slots_at_date schedule k = free_slots_core day [] := by
    simp [free_slots_at_date, hlk]
  rw [hfree]
  by_cases h : day.start = day.«end»
  · simp [free_slots_core, free_slots_loop, h]
  · simp [free_slots_core, free_slots_loop, h]

/-- Witness of C2: a day 09:00-18:00 with no busy slots yields the whole
window as the one free slot. -/
theorem free_slots_empty_busy_witness :
    free_slots_at_date [(0, ⟨⟨0, 540, 1080⟩, 1⟩, [])] 0 = [⟨1, 540, 1080⟩] :=
  (free_slots_empty_busy [(0, ⟨⟨0, 540, 1080⟩, 1⟩, [])] 0
    ⟨⟨0, 540, 1080⟩, 1⟩ rfl).trans (by decide)

/-- C3 counterexample: two adjacent busy slots 09:00-10:00 and 10:00-12:00
exactly tile the window 09:00-12:00.  The busy list is well formed (sorted,
pairwise non-overlapping, inside the window), `free_slots_at_date` returns
the empty list, yet `busy` is not a single interval equal to the window. -/
theorem free_slots_empty_iff_cex :
    WfBusy ⟨⟨0, 540, 720⟩, 1⟩ [⟨1, 540, 600⟩, ⟨1, 600, 720⟩] ∧
    (⟨⟨0, 540, 720⟩, 1⟩ : Day).start < (⟨⟨0, 540, 720⟩, 1⟩ : Day).«end» ∧
    free_slots_at_date
      [(0, ⟨⟨0, 540, 720⟩, 1⟩, [⟨1, 540, 600⟩, ⟨1, 600, 720⟩])] 0 = [] ∧
    ∀ s : TimeSlot, ([⟨1, 540, 600⟩, ⟨1, 600, 720⟩] : List TimeSlot) ≠ [s] := by
  refine ⟨by decide, by decide, by decide, ?_⟩
  intro s h
  have hlen := congrArg List.length h
  simp at hlen

/-- C3 as amended: under the data-model invariants and `start ≤ end`,
`free_slots_at_date` returns the empty list iff the busy slots cover every
instant of the window — that is, iff the busy list exactly tiles
`[day.start, day.end)`, possibly with several adjacent intervals, the
single window-equal interval being the one-element case. -/
theorem free_slots_empty_iff_cover (schedule : ScheduleType) (k : Nat)
    (day : Day) (busy : List TimeSlot)
    (hlk : schedule.lookup k = some (day, busy))
    (hle : day.start ≤ day.«end») (hwf : WfBusy day busy) :
    free_slots_at_date schedule k = [] ↔
      ∀ t, day.start ≤ t → t < day.«end» →
        ∃ s ∈ busy, s.start ≤ t ∧ t < s.«end» := by
  have hfree : free_slots_at_date schedule k = free_slots_core day busy := by
    simp [free_slots_at_date, hlk]
  rw [hfree]
  obtain ⟨htile, _, hbounds⟩ := free_slots_core_spec day busy hle hwf
  constructor
  · intro hnil t ht1 ht2
    have h := htile t
    rw [hnil, List.nil_append, if_pos ⟨ht1, ht2⟩] at h
    have hpos : 0 < busy.countP (fun s => covers s t) := by omega
    obtain ⟨s, hs, hcs⟩ := List.countP_pos_iff.mp hpos
    exact ⟨s, hs, covers_eq_true.mp hcs⟩
  · intro hcov
    cases hfc : free_slots_core day busy with
    | nil => rfl
    | cons f fs =>
      exfalso
      have hf : f ∈ free_slots_core day busy := by
        rw [hfc]; exact List.mem_cons_self f fs
      have hb := hbounds f hf
      obtain ⟨s, hs, hcs⟩ := hcov f.start hb.1 (by omega)
      have h := htile f.start
      have h1 : 0 < (free_slots_core day busy).countP (fun x => covers x f.start) :=
        List.countP_pos_iff.mpr ⟨f, hf, covers_eq_true.mpr ⟨Nat.le_refl _, hb.2.1⟩⟩
      have h2 : 0 < busy.countP (fun x => covers x f.start) :=
        List.countP_pos_iff.mpr ⟨s, hs, covers_eq_true.mpr hcs⟩
      rw [List.countP_append] at h
      split_ifs at h <;> omega

/-- Witness of the amended C3 at the counterexample's inputs. -/
theorem free_slots_empty_iff_cover_witness :
    (free_slots_at_date
      [(0, ⟨⟨0, 540, 720⟩, 1⟩, [⟨1, 540, 600⟩, ⟨1, 600, 720⟩])] 0 = [] ↔
      ∀ t, 540 ≤ t → t < 720 →
        ∃ s ∈ [(⟨1, 540, 600⟩ : TimeSlot), ⟨1, 600, 720⟩],
          s.start ≤ t ∧ t < s.«end») :=
  free_slots_empty_iff_cover
    [(0, ⟨⟨0, 540, 720⟩, 1⟩, [⟨1, 540, 600⟩, ⟨1, 600, 720⟩])] 0
    ⟨⟨0, 540, 720⟩, 1⟩ [⟨1, 540, 600⟩, ⟨1, 600, 720⟩] rfl
    (by decide) (by decide)

/-- C10: a date key that is not present in the schedule makes
`free_slots_at_date` return the empty list rather than fail, and there is
a fully booked known date with the same empty return value, so the two
cases are indistinguishable from the result alone. -/
theorem free_slots_missing_date (schedule : ScheduleType) (k : Nat)
    (hlk : schedule.lookup k = none) :
    free_slots_at_date schedule k = [] ∧
    ∃ s' : ScheduleType, ∃ k' : Nat, (s'.lookup k').isSome = true ∧
      free_slots_at_date s' k' = [] := by
  constructor
  · simp [free_slots_at_date, hlk]
  · exact ⟨[(0, ⟨⟨0, 540, 720⟩, 1⟩, [⟨1, 540, 720⟩])], 0, by decide, by decide⟩

/-- Witness of C10 at the empty schedule. -/
theorem free_slots_missing_date_witness :
    free_slots_at_date ([] : ScheduleType) 0 = [] ∧
    ∃ s' : ScheduleType, ∃ k' : Nat, (s'.lookup k').isSome = true ∧
      free_slots_at_date s' k' = [] :=
  free_slots_missing_date [] 0 rfl

/-- C5: `find_suitable_slot` rejects a non-positive duration with the
`ValueError` of the source instead of returning a schedule. -/
theorem find_suitable_slot_nonpositive (schedule : ScheduleType)
    (duration : Int) (h : duration ≤ 0) :
    find_suitable_slot schedule duration =
      .error "Invalid duration. Must be a positive timedelta." := by
  simp [find_suitable_slot, h]

/-- Witness of C5 at duration zero. -/
theorem find_suitable_slot_nonpositive_witness :
    find_suitable_slot ([] : ScheduleType) 0 =
      .error "Invalid duration. Must be a positive timedelta." :=
  find_suitable_slot_nonpositive [] 0 (by decide)

/-- Shape of an entry produced by the per-date filtering pass of
`find_suitable_slot`: the entry keeps the date key and day and carries the
non-empty filtered free-slot list of that date. -/
theorem suitable_entry_shape (schedule : ScheduleType) (duration : Int)
    (a e : Nat × Day × List TimeSlot)
    (hfa : (if (List.filter (fun x => decide (duration ≤ time_diff x.«end» x.start))
          (free_slots_at_date schedule a.1)).isEmpty = true then none
        else some (a.1, a.2.1,
          List.filter (fun x => decide (duration ≤ time_diff x.«end» x.start))
            (free_slots_at_date schedule a.1))) = some e) :
    e = (a.1, a.2.1,
      List.filter (fun x => decide (duration ≤ time_diff x.«end» x.start))
        (free_slots_at_date schedule a.1)) ∧
    List.filter (fun x => decide (duration ≤ time_diff x.«end» x.start))
      (free_slots_at_date schedule a.1) ≠ [] := by
  by_cases hemp : (List.filter (fun x => decide (duration ≤ time_diff x.«end» x.start))
      (free_slots_at_date schedule a.1)).isEmpty = true
  · rw [if_pos hemp] at hfa
    exact absurd hfa (by simp)
  · rw [if_neg hemp] at hfa
    rw [Option.some.injEq] at hfa
    exact ⟨hfa.symm, fun hnil => hemp (by rw [hnil]; rfl)⟩

/-- C4: every entry of a successful `find_suitable_slot` result has a
non-empty interval list in which every interval is at least `duration`
long, and a date all of whose free intervals are shorter than `duration`
never appears among the result's keys. -/
theorem find_suitable_slot_duration_filter (schedule : ScheduleType)
    (duration : Int) (result : ScheduleType)
    (hok : find_suitable_slot schedule duration = .ok result) :
    (∀ e ∈ result, e.2.2 ≠ [] ∧
      ∀ x ∈ e.2.2, duration ≤ time_diff x.«end» x.start) ∧
    (∀ k : Nat,
      (∀ x ∈ free_slots_at_date schedule k,
        time_diff x.«end» x.start < duration) →
      ∀ e ∈ result, e.1 ≠ k) := by
  unfold find_suitable_slot at hok
  by_cases hd : duration ≤ 0
  · rw [if_pos hd] at hok
    exact absurd hok (by simp)
  · rw [if_neg hd] at hok
    injection hok with hok
    constructor
    · intro e he
      rw [← hok] at he
      obtain ⟨a, ha, hfa⟩ := List.mem_filterMap.mp he
      obtain ⟨rfl, hne⟩ := suitable_entry_shape schedule duration a e hfa
      refine ⟨hne, ?_⟩
      intro x hx
      have := (List.mem_filter.mp hx).2
      exact of_decide_eq_true this
    · intro k hall e he hek
      rw [← hok] at he
      obtain ⟨a, ha, hfa⟩ := List.mem_filterMap.mp he
      obtain ⟨rfl, hne⟩ := suitable_entry_shape schedule duration a e hfa
      have hak : a.1 = k := hek
      subst hak
      apply hne
      rw [List.filter_eq_nil_iff]
      intro x hx
      have := hall x hx
      simp only [decide_eq_true_eq]
      omega

/-- Witness of C4 at the spec's example: window 08:00-17:00, busy
09:30-16:00, minimum duration one hour; both gaps qualify. -/
theorem find_suitable_slot_duration_filter_witness :
    (∀ e ∈ [((0 : Nat), (⟨⟨0, 480, 1020⟩, 1⟩ : Day),
        [(⟨1, 480, 570⟩ : TimeSlot), (⟨1, 960, 1020⟩ : TimeSlot)])],
      e.2.2 ≠ [] ∧ ∀ x ∈ e.2.2, (60 : Int) ≤ time_diff x.«end» x.start) ∧
    (∀ k : Nat,
      (∀ x ∈ free_slots_at_date
          [(0, (⟨⟨0, 480, 1020⟩, 1⟩ : Day), [(⟨1, 570, 960⟩ : TimeSlot)])] k,
        time_diff x.«end» x.start < 60) →
      ∀ e ∈ [((0 : Nat), (⟨⟨0, 480, 1020⟩, 1⟩ : Day),
        [(⟨1, 480, 570⟩ : TimeSlot), (⟨1, 960, 1020⟩ : TimeSlot)])],
      e.1 ≠ k) :=
  find_suitable_slot_duration_filter
    [(0, (⟨⟨0, 480, 1020⟩, 1⟩ : Day), [(⟨1, 570, 960⟩ : TimeSlot)])] 60
    [(0, (⟨⟨0, 480, 1020⟩, 1⟩ : Day),
      [(⟨1, 480, 570⟩ : TimeSlot), (⟨1, 960, 1020⟩ : TimeSlot)])] rfl

/-- Mapping a projection that the filtering function preserves turns a
`filterMap` into a sublist of the original projections. -/
theorem map_filterMap_sublist {α β γ : Type} (f : α → Option β) (g : α → γ)
    (h : β → γ) (hfg : ∀ a b, f a = some b → h b = g a) :
    ∀ l : List α, ((l.filterMap f).map h).Sublist (l.map g) := by
  intro l
  induction l with
  | nil => simp
  | cons a l ih =>
    rw [List.filterMap_cons]
    cases hfa : f a with
    | none =>
      rw [List.map_cons]
      exact ih.cons _
    | some b =>
      rw [List.map_cons, List.map_cons, hfg a b hfa]
      exact ih.cons₂ _

/-- C7: a successful `find_suitable_slot` keeps the dates in the input's
order (the result's key sequence is a sublist of the input's) and keeps,
within each kept date, the intervals in the order produced by
`free_slots_at_date` (each kept interval list is a sublist of the free
list of that date, being a filter of it). -/
theorem find_suitable_slot_order (schedule : ScheduleType) (duration : Int)
    (result : ScheduleType)
    (hok : find_suitable_slot schedule duration = .ok result) :
    (result.map (fun e => e.1)).Sublist (schedule.map (fun e => e.1)) ∧
    ∀ e ∈ result,
      e.2.2.Sublist (free_slots_at_date schedule e.1) := by
  unfold find_suitable_slot at hok
  by_cases hd : duration ≤ 0
  · rw [if_pos hd] at hok
    exact absurd hok (by simp)
  · rw [if_neg hd] at hok
    injection hok with hok
    constructor
    · rw [← hok]
      refine map_filterMap_sublist _ _ _ ?_ schedule
      intro a b hfa
      obtain ⟨rfl, -⟩ := suitable_entry_shape schedule duration a b hfa
      rfl
    · intro e he
      rw [← hok] at he
      obtain ⟨a, ha, hfa⟩ := List.mem_filterMap.mp he
      obtain ⟨rfl, -⟩ := suitable_entry_shape schedule duration a e hfa
      exact List.filter_sublist _

/-- Witness of C7 at the C4 example schedule and duration. -/
theorem find_suitable_slot_order_witness :
    (([((0 : Nat), (⟨⟨0, 480, 1020⟩, 1⟩ : Day),
        [(⟨1, 480, 570⟩ : TimeSlot), (⟨1, 960, 1020⟩ : TimeSlot)])].map
          (fun e => e.1)).Sublist
      ([(0, (⟨⟨0, 480, 1020⟩, 1⟩ : Day), [(⟨1, 570, 960⟩ : TimeSlot)])].map
          (fun e => e.1))) ∧
    ∀ e ∈ [((0 : Nat), (⟨⟨0, 480, 1020⟩, 1⟩ : Day),
        [(⟨1, 480, 570⟩ : TimeSlot), (⟨1, 960, 1020⟩ : TimeSlot)])],
      e.2.2.Sublist (free_slots_at_date
        [(0, (⟨⟨0, 480, 1020⟩, 1⟩ : Day), [(⟨1, 570, 960⟩ : TimeSlot)])] e.1) :=
  find_suitable_slot_order
    [(0, (⟨⟨0, 480, 1020⟩, 1⟩ : Day), [(⟨1, 570, 960⟩ : TimeSlot)])] 60
    [(0, (⟨⟨0, 480, 1020⟩, 1⟩ : Day),
      [(⟨1, 480, 570⟩ : TimeSlot), (⟨1, 960, 1020⟩ : TimeSlot)])] rfl

/-- C6: `can_schedule_slot` is true exactly when some free slot contains
the requested slot, with boundary-equal start or end counting as
contained (the comparisons are non-strict), and it is false on the empty
free-slot list. -/
theorem can_schedule_slot_iff (slot : Slot) (free_slots : List TimeSlot) :
    (can_schedule_slot slot free_slots = true ↔
      ∃ f ∈ free_slots, f.start ≤ slot.start ∧ slot.«end» ≤ f.«end») ∧
    can_schedule_slot slot [] = false := by
  refine ⟨?_, rfl⟩
  cases free_slots with
  | nil => simp [can_schedule_slot]
  | cons f fs =>
    simp [can_schedule_slot, check_time_boundaries, DayOrTimeSlot.start,
      DayOrTimeSlot.«end», List.any_eq_true]

/-- C9: a call through `exception_handler` returns the wrapped function's
value unchanged with no output when the function succeeds, and swallows a
raised exception, printing the single line `ERROR: <message>`, when it
fails. -/
theorem exception_handler_spec {α β : Type} (func : α → Except String β)
    (a : α) :
    (∀ v, func a = .ok v → exception_handler func a = (some v, [])) ∧
    (∀ e, func a = .error e →
      exception_handler func a = (none, ["ERROR: " ++ e])) := by
  constructor
  · intro v hv
    simp [exception_handler, hv]
  · intro e he
    simp [exception_handler, he]

/-- Witness of C9 on one succeeding and one raising function. -/
theorem exception_handler_spec_witness :
    exception_handler (fun n : Nat => (Except.ok n : Except String Nat)) 5 =
      (some 5, []) ∧
    exception_handler (fun _ : Nat => (Except.error "boom" : Except String Nat)) 0 =
      (none, ["ERROR: " ++ "boom"]) :=
  ⟨(exception_handler_spec (fun n : Nat => (Except.ok n : Except String Nat)) 5).1
      5 rfl,
   (exception_handler_spec
      (fun _ : Nat => (Except.error "boom" : Except String Nat)) 0).2 "boom" rfl⟩

end Scheduler
